import Mathlib

/-!
Verification development for the ZotRoute itinerary search engine
(zotroute-backend/app/main.py and app/load_all_data.py).

The Python source is shallowly embedded: the database tables become lists of
records, SQL joins become list comprehensions, SQL string comparison becomes
codepoint-lexicographic comparison, Python string/number handling is modelled
by explicit total functions, and the breadth-first queue loop becomes a
fuel-indexed recursive function (fuel exhaustion is reported by a dedicated
result constructor, so every theorem about successful results holds for
every fuel value).
-/

namespace ZotRoute

/-! ## Python / SQL string primitives -/

/-- Characters removed by Python `str.strip()` (the whitespace set relevant to
ASCII schedule data). -/
def pyIsSpace (c : Char) : Bool :=
  c == ' ' || c == '\t' || c == '\n' || c == '\r' || c == '\x0b' || c == '\x0c'

/-- Drop matching characters from the end of a list. -/
def dropEndWhile (p : Char → Bool) (l : List Char) : List Char :=
  (l.reverse.dropWhile p).reverse

/-- Trim characters matching `p` from both ends. -/
def trimCharsBy (p : Char → Bool) (l : List Char) : List Char :=
  dropEndWhile p (l.dropWhile p)

/-- Python `str.strip()`. -/
def pyStrip (s : String) : String :=
  ⟨trimCharsBy pyIsSpace s.data⟩

/-- SQL `TRIM(s)`: strips space characters only. -/
def sqlTrim (s : String) : String :=
  ⟨trimCharsBy (fun c => c == ' ') s.data⟩

/-- Python `s.split(':')`: splits on every colon, keeping empty pieces. -/
def splitCols : List Char → List (List Char)
  | [] => [[]]
  | c :: cs =>
    if c = ':' then [] :: splitCols cs
    else
      match splitCols cs with
      | [] => [[c]]
      | g :: gs => (c :: g) :: gs

/-- Digit value of a character, if it is a decimal digit. -/
def digitVal (c : Char) : Option Nat :=
  if '0' ≤ c ∧ c ≤ '9' then some (c.toNat - '0'.toNat) else none

/-- Parse a nonempty run of decimal digits. -/
def parseDigits : List Char → Nat → Option Nat
  | [], acc => some acc
  | c :: cs, acc =>
    match digitVal c with
    | some d => parseDigits cs (acc * 10 + d)
    | none => none

/-- Python `int(s)` on a component string: optional surrounding whitespace,
optional sign, then decimal digits; anything else raises (None here). -/
def pyInt : String → Option Int :=
  fun s =>
    match trimCharsBy pyIsSpace s.data with
    | [] => none
    | '-' :: rest =>
      if rest = [] then none else (parseDigits rest 0).map (fun n => -(n : Int))
    | '+' :: rest =>
      if rest = [] then none else (parseDigits rest 0).map (fun n => (n : Int))
    | l => (parseDigits l 0).map (fun n => (n : Int))

/-- Codepoint-lexicographic string order, the model of SQL VARCHAR `<=` used
by the candidate pre-filters and ORDER BY clauses. -/
def lexLe : List Char → List Char → Bool
  | [], _ => true
  | _ :: _, [] => false
  | a :: as, b :: bs =>
    if a.toNat = b.toNat then lexLe as bs else decide (a.toNat < b.toNat)

/-- Python `f"{n:02d}"`: decimal rendering padded to width two. -/
def fmt02 (n : Int) : String :=
  let s := toString n
  if s.length < 2 then "0" ++ s else s

/-- Python `round` on an exact rational: round half to even.  Implemented on
the numerator and denominator with integer arithmetic: `q.num.fdiv q.den` is
the floor, and `2 * (q.num - floor * q.den)` compared with `q.den` classifies
the fractional part against one half. -/
def pyRound (q : Rat) : Int :=
  if 2 * (q.num - q.num.fdiv (q.den : Int) * (q.den : Int)) < (q.den : Int) then
    q.num.fdiv (q.den : Int)
  else if (q.den : Int) < 2 * (q.num - q.num.fdiv (q.den : Int) * (q.den : Int)) then
    q.num.fdiv (q.den : Int) + 1
  else if q.num.fdiv (q.den : Int) % 2 = 0 then q.num.fdiv (q.den : Int)
  else q.num.fdiv (q.den : Int) + 1

/-- Decision procedure for `q ≤ n` with `q` rational and `n` an integer,
phrased on the numerator and denominator (`ratLeInt_iff` below shows it
agrees with the order on `ℚ`). -/
def ratLeInt (q : Rat) (n : Int) : Bool :=
  decide (q.num ≤ n * (q.den : Int))

/-! ## Time-string handling (main.py lines 446-460) -/

/-- The parsing core of `get_py_time`: `h, m, s = map(int, t.strip().split(':'))`
followed by the `time(h % 24, m, s)` constructor's validity requirements on
minutes and seconds (an invalid value raises, which the caller turns into the
fallback).  Returns the raw parsed components. -/
def pyParseHMS (t : String) : Option (Int × Int × Int) :=
  match (splitCols (trimCharsBy pyIsSpace t.data)).map (fun p => pyInt ⟨p⟩) with
  | [some h, some m, some s] =>
    if 0 ≤ m ∧ m < 60 ∧ 0 ≤ s ∧ s < 60 then some (h, m, s) else none
  | _ => none

/-- `get_py_time` (main.py 455-460), as seconds since midnight of the
`time(h % 24, m, s)` value it produces; any failure yields `time(0,0,0)`. -/
def get_py_time (tOpt : Option String) : Int :=
  match tOpt with
  | none => 0
  | some t =>
    if t = "" then 0
    else
      match pyParseHMS t with
      | some (h, m, s) => (h % 24) * 3600 + m * 60 + s
      | none => 0

/-- Helper: `allSome` succeeds only when every element is `some`. -/
def allSome {α : Type} : List (Option α) → Option (List α)
  | [] => some []
  | none :: _ => none
  | some a :: rest => (allSome rest).map (a :: ·)

/-- `parse_time_str` (main.py 446-453): normalises a deadline string to
`HH:MM:SS`, or `None` on any parse failure. -/
def parse_time_str (tOpt : Option String) : Option String :=
  match tOpt with
  | none => none
  | some t0 =>
    if t0 = "" then none
    else
      let t := pyStrip t0
      if ¬ t.data.contains ':' then
        (pyInt t).map (fun n => fmt02 n ++ ":00:00")
      else
        match allSome ((splitCols t.data).map (fun p => pyInt ⟨p⟩)) with
        | none => none
        | some parts =>
          match parts with
          | p0 :: p1 :: rest =>
            some (fmt02 p0 ++ ":" ++ fmt02 p1 ++ ":" ++ fmt02 (rest.headD 0))
          | _ => none

/-! ## Data model (app/models.py)

Each table row becomes a record; nullable columns become `Option`.  Join key
columns (`stop_id`, `trip_id`, `route_id`) are declared non-null primary or
foreign keys and are modelled as plain `String`.  GTFS wall-clock strings stay
strings; `FLOAT` walking distances become exact rationals. -/

structure Stop where
  stop_id : String
  stop_name : Option String
  stop_lat : Rat
  stop_lon : Rat
deriving DecidableEq, Repr

structure Route where
  route_id : String
  route_short_name : Option String
deriving DecidableEq, Repr

structure Trip where
  trip_id : String
  route_id : String
  direction_id : Option Int
deriving DecidableEq, Repr

structure StopTime where
  trip_id : String
  stop_id : String
  arrival_time : Option String
  departure_time : Option String
  stop_sequence : Int
deriving DecidableEq, Repr

structure Transfer where
  from_stop_id : String
  to_stop_id : String
  walk_meters : Option Rat
deriving DecidableEq, Repr

structure DB where
  stops : List Stop
  routes : List Route
  trips : List Trip
  stop_times : List StopTime
  transfers : List Transfer
deriving Repr

/-! ## Transfer-table precomputation (load_all_data.py, build_indexes 122-148)

The INSERT joins `stops` with itself on `ST_DWithin(geog1, geog2, 300)` and
stores `ST_Distance(geog1, geog2)`.  The geodesic distance function is a
parameter; `ST_DWithin(a, b, r)` holds exactly when the distance is `≤ r`. -/

def geoPoint (s : Stop) : Rat × Rat := (s.stop_lon, s.stop_lat)

def buildTransfers (dist : Rat × Rat → Rat × Rat → Rat) (stops : List Stop) :
    List Transfer :=
  stops.flatMap fun s1 =>
    stops.filterMap fun s2 =>
      if dist (geoPoint s1) (geoPoint s2) ≤ 300 then
        some { from_stop_id := s1.stop_id, to_stop_id := s2.stop_id,
               walk_meters := some (dist (geoPoint s1) (geoPoint s2)) }
      else none

/-! ## Direct/Loop finder (main.py, plan_trip 387-435) -/

/-- One result row of the `plan_trip` SQL query. -/
structure DirectRow where
  trip_id : String
  route_short_name : Option String
  origin_seq : Int
  dest_seq : Int
  departure_time : Option String
  arrival_time : Option String
  direction_id : Option Int
deriving DecidableEq, Repr

/-- The join of `plan_trip`'s query before ordering: all pairs of stop visits
of one trip matching origin and destination (ids compared after `TRIM`). -/
def directJoin (db : DB) (origin dest : String) : List DirectRow :=
  db.stop_times.flatMap fun st1 =>
    db.stop_times.flatMap fun st2 =>
      db.trips.flatMap fun t =>
        db.routes.filterMap fun r =>
          if st1.trip_id = st2.trip_id ∧ t.trip_id = st1.trip_id ∧
             r.route_id = t.route_id ∧
             sqlTrim st1.stop_id = sqlTrim origin ∧
             sqlTrim st2.stop_id = sqlTrim dest then
            some { trip_id := st1.trip_id,
                   route_short_name := r.route_short_name,
                   origin_seq := st1.stop_sequence,
                   dest_seq := st2.stop_sequence,
                   departure_time := st1.departure_time,
                   arrival_time := st2.arrival_time,
                   direction_id := t.direction_id }
          else none

/-- Order key of `ORDER BY st1.departure_time ASC` (ascending, NULLS LAST,
codepoint-lexicographic on the raw string). -/
def ascDepB (a b : Option String) : Bool :=
  match a, b with
  | none, none => true
  | none, some _ => false
  | some _, none => true
  | some x, some y => lexLe x.data y.data

/-- The ordering relation on direct rows as a `Prop`, for `insertionSort`. -/
def ascDepRow (a b : DirectRow) : Prop :=
  ascDepB a.departure_time b.departure_time = true

instance : DecidableRel ascDepRow :=
  fun a b => instDecidableEqBool (ascDepB a.departure_time b.departure_time) true

/-- The full ordered result set of `plan_trip`'s query. -/
def queryDirect (db : DB) (origin dest : String) : List DirectRow :=
  List.insertionSort ascDepRow (directJoin db origin dest)

/-- One leg object built by `plan_trip` (the Python dict). -/
structure DirectLeg where
  route : Option String
  legType : String
  leave : String
  arrive : String
  trip_id : String
deriving DecidableEq, Repr

/-- Classification of one query row (main.py 414-432).  `none` models the
`AttributeError` raised by `.strip()` when a time column is NULL. -/
def classifyRow (r : DirectRow) : Option DirectLeg :=
  match r.departure_time, r.arrival_time with
  | some dep, some arr =>
    if r.origin_seq < r.dest_seq then
      some { route := r.route_short_name, legType := "Direct",
             leave := pyStrip dep, arrive := pyStrip arr, trip_id := r.trip_id }
    else
      some { route := r.route_short_name, legType := "Loop (Stay on board)",
             leave := pyStrip dep, arrive := pyStrip arr ++ " (Next Loop)",
             trip_id := r.trip_id }
  | _, _ => none

/-- Result of `plan_trip`: either the no-routes message dict or a leg list. -/
inductive DirectResult where
  | noService
  | legs (l : List DirectLeg)
deriving DecidableEq, Repr

/-- `plan_trip` (main.py 387-435).  The outer `Option` is `none` when the
endpoint raises (NULL time column reaching `.strip()`). -/
def plan_trip (db : DB) (origin dest : String) : Option DirectResult :=
  if (queryDirect db origin dest).isEmpty then some DirectResult.noService
  else (allSome ((queryDirect db origin dest).map classifyRow)).map
    (fun legs => DirectResult.legs (legs.take 5))

/-! ## Multi-transfer bounded search (main.py, plan_multi_transfer 439-574)

The SQL query template is instantiated with `target_join = st2` (deadline
mode) or `target_join = st1` (unconstrained mode).  `SELECT DISTINCT`
deduplicates rows; `ORDER BY` sorts by the mode's key.  The `while queue`
loop becomes the fuel-indexed `bfsT`; besides the result it returns two ghost
traces (the stop ids expanded, and the stop ids enqueued) used to state the
visited-set claims — they influence nothing. -/

/-- One result row of the multi-transfer candidate query. -/
structure Row where
  prev_id : String
  next_id : String
  from_name : Option String
  to_name : Option String
  route_short_name : Option String
  departure_time : Option String
  arrival_time : Option String
  walk_meters : Option Rat
deriving DecidableEq, Repr

/-- One tuple of the query's join before projection, kept with all joined
records so that join conditions (notably `st1.stop_sequence <
st2.stop_sequence`) remain visible. -/
structure JoinRow where
  tr : Transfer
  st1 : StopTime
  st2 : StopTime
  t : Trip
  r : Route
  orig_s : Stop
  dest_s : Stop
deriving DecidableEq, Repr

/-- SQL `TRIM(st2.arrival_time) <= :constraint` with NULL semantics: a NULL
on either side makes the predicate fail the WHERE clause. -/
def sqlLeTrimmed (a : Option String) (c : Option String) : Bool :=
  match a, c with
  | some a, some c => lexLe (sqlTrim a).data c.data
  | _, _ => false

/-- The join of the multi-transfer query (main.py 477-505): `ts` selects the
deadline-mode instantiation (`target_join = st2` plus the time filter). -/
def joinRowsMT (db : DB) (ts : Bool) (curr : String) (k : Option String) :
    List JoinRow :=
  db.transfers.flatMap fun tr =>
    db.stop_times.flatMap fun st1 =>
      db.stop_times.flatMap fun st2 =>
        db.trips.flatMap fun t =>
          db.routes.flatMap fun r =>
            db.stops.flatMap fun os =>
              db.stops.filterMap fun ds =>
                if tr.from_stop_id = curr ∧
                   (ts = true → tr.to_stop_id = st2.stop_id) ∧
                   (ts = false → tr.to_stop_id = st1.stop_id) ∧
                   st1.trip_id = st2.trip_id ∧
                   t.trip_id = st1.trip_id ∧
                   r.route_id = t.route_id ∧
                   os.stop_id = st1.stop_id ∧
                   ds.stop_id = st2.stop_id ∧
                   st1.stop_sequence < st2.stop_sequence ∧
                   (ts = true → sqlLeTrimmed st2.arrival_time k = true) then
                  some { tr := tr, st1 := st1, st2 := st2, t := t, r := r,
                         orig_s := os, dest_s := ds }
                else none

/-- Projection of a join tuple onto the SELECT list. -/
def rowOfJoin (j : JoinRow) : Row :=
  { prev_id := j.st1.stop_id, next_id := j.st2.stop_id,
    from_name := j.orig_s.stop_name, to_name := j.dest_s.stop_name,
    route_short_name := j.r.route_short_name,
    departure_time := j.st1.departure_time,
    arrival_time := j.st2.arrival_time,
    walk_meters := j.tr.walk_meters }

/-- Order key of `ORDER BY st2.arrival_time DESC` (descending, NULLS FIRST). -/
def descArrB (a b : Option String) : Bool :=
  match a, b with
  | none, _ => true
  | some _, none => false
  | some x, some y => lexLe y.data x.data

/-- The mode-dependent row ordering of the candidate query. -/
def rowOrderB (ts : Bool) (a b : Row) : Bool :=
  if ts then descArrB a.arrival_time b.arrival_time
  else ascDepB a.departure_time b.departure_time

/-- Row ordering as a `Prop` relation for `insertionSort`. -/
def rowOrder (ts : Bool) (a b : Row) : Prop :=
  rowOrderB ts a b = true

instance : ∀ ts, DecidableRel (rowOrder ts) :=
  fun ts a b => instDecidableEqBool (rowOrderB ts a b) true

/-- The ordered, deduplicated result set of one candidate query. -/
def queryRows (db : DB) (ts : Bool) (curr : String) (k : Option String) :
    List Row :=
  List.insertionSort (rowOrder ts) (((joinRowsMT db ts curr k).map rowOfJoin).dedup)

/-- One leg dict built inside the search loop; `departure`/`arrival` are only
set in deadline mode. -/
structure Leg where
  route : String
  fromName : String
  toName : String
  walk_meters : Int
  departure : Option String
  arrival : Option String
deriving DecidableEq, Repr

/-- A queue entry: current stop id, accumulated path, current constraint. -/
abbrev Entry := String × List Leg × Option String

/-- Python truthiness of an optional string (`None` and `""` are falsy). -/
def pyTruthy : Option String → Bool
  | none => false
  | some s => decide (s ≠ "")

/-- Python `x if x else d` on an optional string field. -/
def orElseStr (o : Option String) (d : String) : String :=
  match o with
  | none => d
  | some s => if s = "" then d else s

/-- The leg dict built for a row before the deadline-mode fields are added
(main.py 521-531): fallbacks for falsy route and stop names, walk distance
rounded. -/
def baseLeg (row : Row) : Leg :=
  { route := orElseStr row.route_short_name "Bus",
    fromName := orElseStr row.from_name "Unknown Stop",
    toName := orElseStr row.to_name "Unknown Stop",
    walk_meters := pyRound (row.walk_meters.getD 0),
    departure := none, arrival := none }

/-- The per-row body of the search loop (main.py 513-559) up to the target and
visited checks: `none` means the row is skipped (`continue`), `some (nsid,
new_path, new_constraint)` gives the "next stop to search" and the updated
path and constraint.  In deadline mode the feasibility test is the code's
`(arr_dt + walk_buffer) > const_dt → continue`, stated as the equivalent
`walk_dist ≤ constraint − arrival` integer-second comparison (`ratLeInt`). -/
def rowCandidate (ts : Bool) (row : Row) (path : List Leg) (k : Option String) :
    Option Entry :=
  if (if ts then pyStrip row.prev_id else pyStrip row.next_id) = "" then none
  else if ts then
    if pyTruthy row.departure_time ∧ pyTruthy row.arrival_time then
      if ratLeInt (row.walk_meters.getD 0)
          (get_py_time k - get_py_time (some (pyStrip (row.arrival_time.getD "")))) then
        some (pyStrip row.prev_id,
          { baseLeg row with
              departure := some (pyStrip (row.departure_time.getD "")),
              arrival := some (pyStrip (row.arrival_time.getD "")) } :: path,
          some (pyStrip (row.departure_time.getD "")))
      else none
    else none
  else some (pyStrip row.next_id, path ++ [baseLeg row], none)

/-- Result of the search: `outOfFuel` is the embedding's artifact for an
unfinished run (never produced by the Python loop, which always terminates
because the visited set is bounded by the finite stop table). -/
inductive SResult where
  | success (mode : String) (path : List Leg)
  | notFound
  | outOfFuel
deriving DecidableEq, Repr

/-- The mode string of a successful response. -/
def modeStr (ts : Bool) : String :=
  if ts then "time-constrained" else "generic"

/-- The inner `for row in results` loop: threads the visited set, queue and
enqueue trace through the rows; returns `Sum.inl` on the immediate-success
return (with the enqueue trace at that moment). -/
def processRows (ts : Bool) (target : String) (path : List Leg)
    (k : Option String) :
    List Row → List String → List Entry → List String →
    (SResult × List String) ⊕ (List String × List Entry × List String)
  | [], visited, queue, enq => Sum.inr (visited, queue, enq)
  | row :: rest, visited, queue, enq =>
    match rowCandidate ts row path k with
    | none => processRows ts target path k rest visited queue enq
    | some (nsid, np, nk) =>
      if nsid = target then Sum.inl (SResult.success (modeStr ts) np, enq)
      else if nsid ∈ visited then processRows ts target path k rest visited queue enq
      else processRows ts target path k rest (nsid :: visited)
             (queue ++ [(nsid, np, nk)]) (enq ++ [nsid])

/-- The `while queue` loop, with fuel.  The last two arguments accumulate the
ghost traces of expanded and enqueued stop ids. -/
def bfsT (db : DB) (ts : Bool) (origin dest : String) :
    Nat → List String → List Entry → List String → List String →
    SResult × List String × List String
  | 0, _, _, exp, enq => (SResult.outOfFuel, exp, enq)
  | _ + 1, _, [], exp, enq => (SResult.notFound, exp, enq)
  | fuel + 1, visited, (curr, path, k) :: qrest, exp, enq =>
    if 4 ≤ path.length then bfsT db ts origin dest fuel visited qrest exp enq
    else
      match processRows ts (if ts then origin else dest) path k
          (queryRows db ts curr k) visited qrest enq with
      | Sum.inl (r, enq') => (r, exp ++ [curr], enq')
      | Sum.inr (v', q', enq') => bfsT db ts origin dest fuel v' q' (exp ++ [curr]) enq'

/-- Queue/visited initialisation and loop entry shared verbatim by
`plan_multi_transfer` and `plan_trip_by_coords`: start from the destination in
deadline mode, from the origin otherwise, with the start node pre-visited and
the deadline as the initial constraint. -/
def runSearch (db : DB) (ts : Bool) (origin dest : String)
    (deadline : Option String) (fuel : Nat) : SResult × List String × List String :=
  bfsT db ts origin dest fuel [if ts then dest else origin]
    [(if ts then dest else origin, [], if ts then deadline else none)]
    [] [if ts then dest else origin]

/-- `plan_multi_transfer` (main.py 439-574) with its ghost traces. -/
def plan_multi_transferT (db : DB) (origin_stop_id dest_stop_id : String)
    (arrive_by : Option String) (fuel : Nat) : SResult × List String × List String :=
  runSearch db (parse_time_str arrive_by).isSome (pyStrip origin_stop_id)
    (pyStrip dest_stop_id) (parse_time_str arrive_by) fuel

/-- `plan_multi_transfer`: the endpoint's observable result. -/
def plan_multi_transfer (db : DB) (origin_stop_id dest_stop_id : String)
    (arrive_by : Option String) (fuel : Nat) : SResult :=
  (plan_multi_transferT db origin_stop_id dest_stop_id arrive_by fuel).1

/-! ## Coordinate-based planner (main.py, plan_trip_by_coords 577-775)

Nearest-stop resolution runs over PostGIS geography; the search core receives
the already-resolved stop ids (stripped by `get_nearest_stop`) and the rounded
walking distances.  The function's inner queue loop is token-for-token the
loop of `plan_multi_transfer`, with the success path formatted into a readable
itinerary; it is therefore embedded as `bfsT` followed by the formatter. -/

/-- One step of the readable itinerary. -/
inductive Step where
  | walk (destination : String) (distance_meters : Int)
  | ride (route : String) (fromName : String) (toName : String)
      (departure : Option String) (arrival : Option String)
deriving DecidableEq, Repr

/-- The Ride-Bus step of one leg; departure/arrival only in deadline mode. -/
def rideStep (ts : Bool) (l : Leg) : Step :=
  Step.ride l.route l.fromName l.toName
    (if ts then l.departure else none) (if ts then l.arrival else none)

/-- Walk-plus-ride steps of a non-first leg (main.py 736-755). -/
def midSteps (ts : Bool) (l : Leg) : List Step :=
  (if 0 < l.walk_meters then [Step.walk l.fromName l.walk_meters] else [])
    ++ [rideStep ts l]

/-- The success-path formatter (main.py 722-763): first leg merges the origin
GPS walk with its transfer walk; a trailing walk covers the last-stop-to-GPS
distance. -/
def formatItinerary (ts : Bool) (orig_walk dest_walk : Int) :
    List Leg → List Step
  | [] =>
    if 0 < dest_walk then [Step.walk "Final Destination" dest_walk] else []
  | l :: rest =>
    (if 0 < orig_walk + l.walk_meters then
        [Step.walk l.fromName (orig_walk + l.walk_meters)]
      else []) ++ [rideStep ts l] ++ rest.flatMap (midSteps ts)
      ++ (if 0 < dest_walk then [Step.walk "Final Destination" dest_walk] else [])

/-- Result of the coordinate planner's search portion. -/
inductive CoordResult where
  | success (mode : String) (itinerary : List Step)
  | notFound
  | outOfFuel
deriving DecidableEq, Repr

/-- The search-and-format core of `plan_trip_by_coords`, taking the resolved
origin/destination stop ids (already stripped by `get_nearest_stop`) and the
rounded GPS walking distances. -/
def plan_by_coords_core (db : DB) (orig_stop_id : String) (orig_walk : Int)
    (dest_stop_id : String) (dest_walk : Int) (arrive_by : Option String)
    (fuel : Nat) : CoordResult :=
  match runSearch db (parse_time_str arrive_by).isSome orig_stop_id dest_stop_id
      (parse_time_str arrive_by) fuel with
  | (SResult.success m p, _, _) =>
    CoordResult.success m
      (formatItinerary (parse_time_str arrive_by).isSome orig_walk dest_walk p)
  | (SResult.notFound, _, _) => CoordResult.notFound
  | (SResult.outOfFuel, _, _) => CoordResult.outOfFuel

/-- Spec-side restatement of the formatter, following the claim's own wording:
the combined first walk is emitted when positive, an intermediate transfer
walk when greater than zero, and the trailing walk exactly when the final GPS
distance is nonzero. -/
def formatItinerarySpec (ts : Bool) (orig_walk dest_walk : Int) :
    List Leg → List Step
  | [] =>
    if dest_walk ≠ 0 then [Step.walk "Final Destination" dest_walk] else []
  | l :: rest =>
    (if 0 < orig_walk + l.walk_meters then
        [Step.walk l.fromName (orig_walk + l.walk_meters)]
      else []) ++ [rideStep ts l] ++ rest.flatMap (midSteps ts)
      ++ (if dest_walk ≠ 0 then [Step.walk "Final Destination" dest_walk] else [])

/-! ## Concrete schedule databases for witnesses and counterexamples -/

/-- Two stops on one trip; A at sequence 1, B at sequence 2. -/
def tinyDB : DB :=
  { stops := [⟨"A", some "Stop A", 0, 0⟩, ⟨"B", some "Stop B", 0, 0⟩],
    routes := [⟨"R1", some "M"⟩],
    trips := [⟨"T1", "R1", some 0⟩],
    stop_times := [⟨"T1", "A", some "10:00:00", some "10:00:00", 1⟩,
                   ⟨"T1", "B", some "10:05:00", some "10:05:00", 2⟩],
    transfers := [⟨"A", "A", some 0⟩, ⟨"B", "B", some 0⟩,
                  ⟨"A", "B", some 50⟩, ⟨"B", "A", some 50⟩] }

/-- A looping trip that visits stop O at two sequence positions; stop B is
within walking range of O but has no scheduled visits. -/
def loopDB : DB :=
  { stops := [⟨"O", some "Stop O", 0, 0⟩, ⟨"B", some "Stop B", 0, 0⟩],
    routes := [⟨"R1", some "M"⟩],
    trips := [⟨"T1", "R1", some 0⟩],
    stop_times := [⟨"T1", "O", some "09:00:00", some "09:00:00", 1⟩,
                   ⟨"T1", "O", some "09:10:00", some "09:10:00", 2⟩],
    transfers := [⟨"O", "O", some 0⟩, ⟨"B", "B", some 0⟩,
                  ⟨"O", "B", some 50⟩, ⟨"B", "O", some 50⟩] }

/-- A schedule whose destination-side visit carries a malformed (nonempty,
unparseable) arrival string that still passes the lexicographic SQL
pre-filter, and a malformed departure string. -/
def malformedDB : DB :=
  { stops := [⟨"O", some "Stop O", 0, 0⟩, ⟨"B", some "Stop B", 0, 0⟩],
    routes := [⟨"R1", some "M"⟩],
    trips := [⟨"T1", "R1", some 0⟩],
    stop_times := [⟨"T1", "O", some "08:00:00", some "bad-dep", 1⟩,
                   ⟨"T1", "B", some "0:xx", some "0:yy", 2⟩],
    transfers := [⟨"O", "O", some 0⟩, ⟨"B", "B", some 0⟩,
                  ⟨"O", "B", some 50⟩, ⟨"B", "O", some 50⟩] }

/-! ## Arithmetic helper lemmas -/

theorem ratLeInt_iff (q : Rat) (n : Int) :
    ratLeInt q n = true ↔ q ≤ (n : Rat) := by
  rw [ratLeInt, decide_eq_true_iff, Rat.le_def]
  simp

theorem fdiv_num_den (q : Rat) : q.num.fdiv (q.den : Int) = ⌊q⌋ := by
  rw [Rat.floor_def]
  exact Int.fdiv_eq_ediv _ (Int.natCast_nonneg _)

theorem pyRound_le_of_le (q : Rat) (n : Int) (h : q ≤ (n : Rat)) :
    pyRound q ≤ n := by
  have hfn : ⌊q⌋ ≤ n := by
    have h2 := Int.floor_le_floor h
    rwa [Int.floor_intCast] at h2
  have hden : (1 : Int) ≤ (q.den : Int) := by exact_mod_cast q.den_pos
  have hup : (q.den : Int) ≤ 2 * (q.num - ⌊q⌋ * (q.den : Int)) → ⌊q⌋ + 1 ≤ n := by
    intro hhalf
    have hnum : ⌊q⌋ * (q.den : Int) < q.num := by omega
    have hq : (⌊q⌋ : Rat) < q := by
      rw [Rat.lt_def]
      simpa using hnum
    have : (⌊q⌋ : Rat) < (n : Rat) := lt_of_lt_of_le hq h
    have : ⌊q⌋ < n := by exact_mod_cast this
    omega
  rw [pyRound, fdiv_num_den]
  split_ifs with h1 h2 h3
  · exact hfn
  · exact hup (by omega)
  · exact hfn
  · exact hup (by omega)

/-! ## Lexicographic-order lemmas -/

theorem lexLe_total (a : List Char) : ∀ b, lexLe a b = true ∨ lexLe b a = true := by
  induction a with
  | nil => intro b; left; rfl
  | cons x xs ih =>
    intro b
    cases b with
    | nil => right; rfl
    | cons y ys =>
      by_cases hxy : x.toNat = y.toNat
      · have h2 : y.toNat = x.toNat := hxy.symm
        rcases ih ys with h | h
        · left; simpa [lexLe, hxy] using h
        · right; simpa [lexLe, h2] using h
      · have h2 : ¬ y.toNat = x.toNat := fun e => hxy e.symm
        rcases Nat.lt_or_ge x.toNat y.toNat with h | h
        · left; simp [lexLe, hxy, h]
        · right; simp [lexLe, h2]; omega

theorem lexLe_trans (a : List Char) :
    ∀ b c, lexLe a b = true → lexLe b c = true → lexLe a c = true := by
  induction a with
  | nil => intro b c _ _; rfl
  | cons x xs ih =>
    intro b c h1 h2
    cases b with
    | nil => simp [lexLe] at h1
    | cons y ys =>
      cases c with
      | nil => simp [lexLe] at h2
      | cons z zs =>
        by_cases hxy : x.toNat = y.toNat
        · by_cases hyz : y.toNat = z.toNat
          · simp only [lexLe, if_pos hxy] at h1
            simp only [lexLe, if_pos hyz] at h2
            simp only [lexLe, if_pos (hxy.trans hyz)]
            exact ih ys zs h1 h2
          · simp only [lexLe, if_neg hyz, decide_eq_true_iff] at h2
            simp only [lexLe, if_neg (by omega : ¬ x.toNat = z.toNat),
              decide_eq_true_iff]
            omega
        · simp only [lexLe, if_neg hxy, decide_eq_true_iff] at h1
          by_cases hyz : y.toNat = z.toNat
          · simp only [lexLe, if_neg (by omega : ¬ x.toNat = z.toNat),
              decide_eq_true_iff]
            omega
          · simp only [lexLe, if_neg hyz, decide_eq_true_iff] at h2
            simp only [lexLe, if_neg (by omega : ¬ x.toNat = z.toNat),
              decide_eq_true_iff]
            omega

theorem ascDepB_total (a b : Option String) :
    ascDepB a b = true ∨ ascDepB b a = true := by
  cases a <;> cases b <;> simp [ascDepB]
  exact lexLe_total _ _

theorem ascDepB_trans (a b c : Option String) (h1 : ascDepB a b = true)
    (h2 : ascDepB b c = true) : ascDepB a c = true := by
  cases a <;> cases b <;> cases c <;> simp_all [ascDepB]
  exact lexLe_trans _ _ _ h1 h2

instance : IsTotal DirectRow ascDepRow :=
  ⟨fun a b => ascDepB_total a.departure_time b.departure_time⟩

instance : IsTrans DirectRow ascDepRow :=
  ⟨fun _ _ _ h1 h2 => ascDepB_trans _ _ _ h1 h2⟩

/-! ## Deadline-mode feasibility chain -/

/-- The feasibility relation enforced on an accepted leg: its arrival time
plus the walking buffer (walk distance at the reference speed of one metre
per second) is within the constraint. -/
def feasibleLeg (l : Leg) (k : Option String) : Prop :=
  get_py_time l.arrival + l.walk_meters ≤ get_py_time k

/-- The constraint that was active when the head leg of `path` was accepted:
the deadline for the chronologically last leg, and the successor leg's
departure time for earlier legs. -/
def activeConstraint (deadline : String) : List Leg → Option String
  | [] => some deadline
  | l :: _ => l.departure

/-- Every leg of the path is feasible against the constraint that was active
when it was accepted. -/
def tsChain (deadline : String) : List Leg → Prop
  | [] => True
  | l :: rest => feasibleLeg l (activeConstraint deadline rest) ∧ tsChain deadline rest

/-- The queue-entry invariant of the deadline-mode search. -/
def entryInv (deadline : String) (e : Entry) : Prop :=
  tsChain deadline e.2.1 ∧ e.2.2 = activeConstraint deadline e.2.1

/-! ## Per-row lemmas about the search loop -/

theorem rowCandidate_true_eq (row : Row) (path : List Leg) (k : Option String) :
    rowCandidate true row path k =
      (if pyStrip row.prev_id = "" then none
       else if pyTruthy row.departure_time ∧ pyTruthy row.arrival_time then
         if ratLeInt (row.walk_meters.getD 0)
             (get_py_time k - get_py_time (some (pyStrip (row.arrival_time.getD "")))) then
           some (pyStrip row.prev_id,
             { baseLeg row with
                 departure := some (pyStrip (row.departure_time.getD "")),
                 arrival := some (pyStrip (row.arrival_time.getD "")) } :: path,
             some (pyStrip (row.departure_time.getD "")))
         else none
       else none) := rfl

theorem rowCandidate_false_eq (row : Row) (path : List Leg) (k : Option String) :
    rowCandidate false row path k =
      (if pyStrip row.next_id = "" then none
       else some (pyStrip row.next_id, path ++ [baseLeg row], none)) := rfl

theorem rowCandidate_length {ts : Bool} {row : Row} {path : List Leg}
    {k : Option String} {nsid : String} {np : List Leg} {nk : Option String}
    (h : rowCandidate ts row path k = some (nsid, np, nk)) :
    np.length = path.length + 1 := by
  cases ts
  · rw [rowCandidate_false_eq] at h
    split_ifs at h
    simp only [Option.some.injEq, Prod.mk.injEq] at h
    rw [← h.2.1]
    simp
  · rw [rowCandidate_true_eq] at h
    split_ifs at h
    simp only [Option.some.injEq, Prod.mk.injEq] at h
    rw [← h.2.1]
    simp

theorem rowCandidate_true_inv {row : Row} {path : List Leg}
    {k : Option String} {nsid : String} {np : List Leg} {nk : Option String}
    (h : rowCandidate true row path k = some (nsid, np, nk)) :
    ∃ leg, np = leg :: path ∧ nk = leg.departure ∧ feasibleLeg leg k := by
  rw [rowCandidate_true_eq] at h
  split_ifs at h with h1 h2 h3
  simp only [Option.some.injEq, Prod.mk.injEq] at h
  obtain ⟨-, hnp, hnk⟩ := h
  refine ⟨_, hnp.symm, hnk.symm, ?_⟩
  have hle := (ratLeInt_iff _ _).mp h3
  have hr := pyRound_le_of_le _ _ hle
  simp only [feasibleLeg, baseLeg]
  omega

theorem rowCandidate_false_shape {row : Row} {path : List Leg}
    {k : Option String} {nsid : String} {np : List Leg} {nk : Option String}
    (h : rowCandidate false row path k = some (nsid, np, nk)) :
    ∃ leg, np = path ++ [leg] ∧ nk = none := by
  rw [rowCandidate_false_eq] at h
  split_ifs at h
  simp only [Option.some.injEq, Prod.mk.injEq] at h
  exact ⟨_, h.2.1.symm, h.2.2.symm⟩

theorem rowCandidate_missing_time {row : Row} {path : List Leg}
    {k : Option String}
    (h : pyTruthy row.departure_time = false ∨ pyTruthy row.arrival_time = false) :
    rowCandidate true row path k = none := by
  rw [rowCandidate_true_eq]
  split_ifs with h1 h2 h3 <;> try rfl
  rcases h with h | h
  · rw [h] at h2; exact absurd h2.1 (by simp)
  · rw [h] at h2; exact absurd h2.2 (by simp)

/-! ## Lemmas about the inner row loop -/

theorem processRows_skip {ts : Bool} {target : String} {path : List Leg}
    {k : Option String} {row : Row} {rest : List Row} {visited : List String}
    {queue : List Entry} {enq : List String}
    (h : rowCandidate ts row path k = none) :
    processRows ts target path k (row :: rest) visited queue enq =
      processRows ts target path k rest visited queue enq := by
  rw [processRows, h]

theorem processRows_cons {ts : Bool} {target : String} {path : List Leg}
    {k : Option String} {row : Row} {rest : List Row} {visited : List String}
    {queue : List Entry} {enq : List String} {nsid : String} {np : List Leg}
    {nk : Option String}
    (hc : rowCandidate ts row path k = some (nsid, np, nk)) :
    processRows ts target path k (row :: rest) visited queue enq =
      (if nsid = target then Sum.inl (SResult.success (modeStr ts) np, enq)
       else if nsid ∈ visited then
         processRows ts target path k rest visited queue enq
       else processRows ts target path k rest (nsid :: visited)
              (queue ++ [(nsid, np, nk)]) (enq ++ [nsid])) := by
  rw [processRows, hc]

theorem processRows_inl {ts : Bool} {target : String} {path : List Leg}
    {k : Option String} :
    ∀ {rows : List Row} {visited : List String} {queue : List Entry}
      {enq enq' : List String} {r : SResult},
      processRows ts target path k rows visited queue enq = Sum.inl (r, enq') →
      ∃ row ∈ rows, ∃ np nk, rowCandidate ts row path k = some (target, np, nk) ∧
        r = SResult.success (modeStr ts) np := by
  intro rows
  induction rows with
  | nil => intro _ _ _ _ _ h; exact absurd h (by simp [processRows])
  | cons row rest ih =>
    intro visited queue enq enq' r h
    rw [processRows] at h
    cases hc : rowCandidate ts row path k with
    | none =>
      simp only [hc] at h
      obtain ⟨row', hm, hrest⟩ := ih h
      exact ⟨row', List.mem_cons_of_mem _ hm, hrest⟩
    | some c =>
      obtain ⟨nsid, np, nk⟩ := c
      simp only [hc] at h
      by_cases ht : nsid = target
      · rw [if_pos ht] at h
        simp only [Sum.inl.injEq, Prod.mk.injEq] at h
        subst ht
        exact ⟨row, List.mem_cons_self _ _, np, nk, hc, h.1.symm⟩
      · rw [if_neg ht] at h
        split at h
        · obtain ⟨row', hm, hrest⟩ := ih h
          exact ⟨row', List.mem_cons_of_mem _ hm, hrest⟩
        · obtain ⟨row', hm, hrest⟩ := ih h
          exact ⟨row', List.mem_cons_of_mem _ hm, hrest⟩

theorem processRows_inr_pred (P : Entry → Prop) {ts : Bool} {target : String}
    {path : List Leg} {k : Option String}
    (hcand : ∀ row nsid np nk,
      rowCandidate ts row path k = some (nsid, np, nk) → P (nsid, np, nk)) :
    ∀ {rows : List Row} {visited : List String} {queue : List Entry}
      {enq : List String} {v' : List String} {q' : List Entry} {enq' : List String},
      (∀ e ∈ queue, P e) →
      processRows ts target path k rows visited queue enq = Sum.inr (v', q', enq') →
      ∀ e ∈ q', P e := by
  intro rows
  induction rows with
  | nil =>
    intro _ queue _ _ _ _ hq h
    simp only [processRows, Sum.inr.injEq, Prod.mk.injEq] at h
    rw [← h.2.1]
    exact hq
  | cons row rest ih =>
    intro visited queue enq v' q' enq' hq h
    rw [processRows] at h
    cases hc : rowCandidate ts row path k with
    | none =>
      simp only [hc] at h
      exact ih hq h
    | some c =>
      obtain ⟨nsid, np, nk⟩ := c
      simp only [hc] at h
      by_cases ht : nsid = target
      · rw [if_pos ht] at h
        exact absurd h (by simp)
      · rw [if_neg ht] at h
        split at h
        · exact ih hq h
        · refine ih ?_ h
          intro e he
          rcases List.mem_append.mp he with he | he
          · exact hq e he
          · rw [List.mem_singleton.mp he]
            exact hcand row nsid np nk hc

/-! ## Main loop lemmas -/

theorem bfsT_success_length {db : DB} {ts : Bool} {origin dest : String} :
    ∀ (fuel : Nat) {visited : List String} {queue : List Entry}
      {e1 e2 : List String} {m : String} {p : List Leg} {t1 t2 : List String},
      bfsT db ts origin dest fuel visited queue e1 e2 =
        (SResult.success m p, t1, t2) →
      1 ≤ p.length ∧ p.length ≤ 4 := by
  intro fuel
  induction fuel with
  | zero =>
    intro _ _ _ _ _ _ _ _ h
    exact absurd h (by simp [bfsT])
  | succ fuel ih =>
    intro visited queue e1 e2 m p t1 t2 h
    match queue with
    | [] => exact absurd h (by simp [bfsT])
    | (curr, path, k) :: qrest =>
      by_cases hlen : 4 ≤ path.length
      · rw [bfsT, if_pos hlen] at h
        exact ih h
      · rw [bfsT, if_neg hlen] at h
        cases hpr : processRows ts (if ts then origin else dest) path k
            (queryRows db ts curr k) visited qrest e2 with
        | inl pr =>
          obtain ⟨r, enq'⟩ := pr
          simp only [hpr] at h
          obtain ⟨_, _, np, nk, hc, hr⟩ := processRows_inl hpr
          simp only [Prod.mk.injEq] at h
          have hp : SResult.success m p = SResult.success (modeStr ts) np := by
            rw [← h.1, hr]
          have hlen2 := rowCandidate_length hc
          injection hp with hm hpn
          subst hpn
          omega
        | inr pr =>
          obtain ⟨v', q', enq'⟩ := pr
          simp only [hpr] at h
          exact ih h

theorem bfsT_success_pred (P : Entry → Prop) {db : DB} {ts : Bool}
    {origin dest : String}
    (hstep : ∀ c path k row nsid np nk, P (c, path, k) →
      rowCandidate ts row path k = some (nsid, np, nk) → P (nsid, np, nk)) :
    ∀ (fuel : Nat) {visited : List String} {queue : List Entry}
      {e1 e2 : List String} {m : String} {p : List Leg} {t1 t2 : List String},
      (∀ e ∈ queue, P e) →
      bfsT db ts origin dest fuel visited queue e1 e2 =
        (SResult.success m p, t1, t2) →
      ∃ x k, P (x, p, k) := by
  intro fuel
  induction fuel with
  | zero =>
    intro _ _ _ _ _ _ _ _ _ h
    exact absurd h (by simp [bfsT])
  | succ fuel ih =>
    intro visited queue e1 e2 m p t1 t2 hq h
    match queue with
    | [] => exact absurd h (by simp [bfsT])
    | (curr, path, k) :: qrest =>
      have hqrest : ∀ e ∈ qrest, P e := fun e he => hq e (List.mem_cons_of_mem _ he)
      by_cases hlen : 4 ≤ path.length
      · rw [bfsT, if_pos hlen] at h
        exact ih hqrest h
      · rw [bfsT, if_neg hlen] at h
        cases hpr : processRows ts (if ts then origin else dest) path k
            (queryRows db ts curr k) visited qrest e2 with
        | inl pr =>
          obtain ⟨r, enq'⟩ := pr
          simp only [hpr] at h
          obtain ⟨_, _, np, nk, hc, hr⟩ := processRows_inl hpr
          simp only [Prod.mk.injEq] at h
          have hp : SResult.success m p = SResult.success (modeStr ts) np := by
            rw [← h.1, hr]
          injection hp with hm hpn
          subst hpn
          have hP := hstep curr path k _ _ _ _ (hq _ (List.mem_cons_self _ _)) hc
          exact ⟨_, _, hP⟩
        | inr pr =>
          obtain ⟨v', q', enq'⟩ := pr
          simp only [hpr] at h
          refine ih ?_ h
          exact processRows_inr_pred P
            (fun row nsid np nk hc =>
              hstep curr path k row nsid np nk (hq _ (List.mem_cons_self _ _)) hc)
            hqrest hpr

/-! ## Visited-set lemmas (claim C6) -/

theorem processRows_c6 {ts : Bool} {target : String} {path : List Leg}
    {k : Option String} (exp : List String) :
    ∀ (rows : List Row) (visited : List String) (queue : List Entry)
      (enq : List String),
      (exp ++ queue.map (fun e => e.1)).Nodup →
      (∀ x ∈ exp ++ queue.map (fun e => e.1), x ∈ visited) →
      enq.Nodup → (∀ x ∈ enq, x ∈ visited) →
      (match processRows ts target path k rows visited queue enq with
       | Sum.inl (_, enq') => enq'.Nodup
       | Sum.inr (v', q', enq') =>
           (exp ++ q'.map (fun e => e.1)).Nodup ∧
           (∀ x ∈ exp ++ q'.map (fun e => e.1), x ∈ v') ∧
           enq'.Nodup ∧ (∀ x ∈ enq', x ∈ v')) := by
  intro rows
  induction rows with
  | nil =>
    intro visited queue enq h1 h2 h3 h4
    simp only [processRows]
    exact ⟨h1, h2, h3, h4⟩
  | cons row rest ih =>
    intro visited queue enq h1 h2 h3 h4
    cases hc : rowCandidate ts row path k with
    | none =>
      rw [processRows_skip hc]
      exact ih visited queue enq h1 h2 h3 h4
    | some c =>
      obtain ⟨nsid, np, nk⟩ := c
      rw [processRows_cons hc]
      by_cases ht : nsid = target
      · rw [if_pos ht]
        exact h3
      · rw [if_neg ht]
        by_cases hv : nsid ∈ visited
        · rw [if_pos hv]
          exact ih visited queue enq h1 h2 h3 h4
        · rw [if_neg hv]
          have hnotin : nsid ∉ exp ++ queue.map (fun e => e.1) :=
            fun hmem => hv (h2 _ hmem)
          have hnotin2 : nsid ∉ enq := fun hmem => hv (h4 _ hmem)
          refine ih _ _ _ ?_ ?_ ?_ ?_
          · rw [List.map_append, ← List.append_assoc]
            refine List.nodup_append.mpr ⟨h1, by simp, ?_⟩
            intro a ha hb
            have hb' : a = nsid := by simpa using hb
            rw [hb'] at ha
            exact hnotin ha
          · intro x hx
            rw [List.map_append, ← List.append_assoc] at hx
            rcases List.mem_append.mp hx with hx | hx
            · exact List.mem_cons_of_mem _ (h2 _ hx)
            · have hx' : x = nsid := by simpa using hx
              rw [hx']
              exact List.mem_cons_self _ _
          · refine List.nodup_append.mpr ⟨h3, by simp, ?_⟩
            intro a ha hb
            have hb' : a = nsid := by simpa using hb
            rw [hb'] at ha
            exact hnotin2 ha
          · intro x hx
            rcases List.mem_append.mp hx with hx | hx
            · exact List.mem_cons_of_mem _ (h4 _ hx)
            · have hx' : x = nsid := by simpa using hx
              rw [hx']
              exact List.mem_cons_self _ _

theorem bfsT_c6 {db : DB} {ts : Bool} {origin dest : String} :
    ∀ (fuel : Nat) (visited : List String) (queue : List Entry)
      (exp enq : List String),
      (exp ++ queue.map (fun e => e.1)).Nodup →
      (∀ x ∈ exp ++ queue.map (fun e => e.1), x ∈ visited) →
      enq.Nodup → (∀ x ∈ enq, x ∈ visited) →
      (bfsT db ts origin dest fuel visited queue exp enq).2.1.Nodup ∧
      (bfsT db ts origin dest fuel visited queue exp enq).2.2.Nodup := by
  intro fuel
  induction fuel with
  | zero =>
    intro visited queue exp enq h1 h2 h3 h4
    exact ⟨(h1.sublist (List.sublist_append_left _ _) : exp.Nodup), h3⟩
  | succ fuel ih =>
    intro visited queue exp enq h1 h2 h3 h4
    match queue with
    | [] =>
      exact ⟨(h1.sublist (List.sublist_append_left _ _) : exp.Nodup), h3⟩
    | (curr, path, k) :: qrest =>
      by_cases hlen : 4 ≤ path.length
      · rw [bfsT, if_pos hlen]
        refine ih visited qrest exp enq ?_ ?_ h3 h4
        · exact h1.sublist
            ((List.sublist_cons_self _ _).append_left exp)
        · intro x hx
          exact h2 _ ((List.sublist_cons_self _ _).append_left exp |>.mem hx)
      · rw [bfsT, if_neg hlen]
        have h1' : ((exp ++ [curr]) ++ qrest.map (fun e => e.1)).Nodup := by
          rw [List.append_assoc]
          simpa using h1
        have h2' : ∀ x ∈ (exp ++ [curr]) ++ qrest.map (fun e => e.1), x ∈ visited := by
          intro x hx
          rw [List.append_assoc] at hx
          refine h2 _ ?_
          simpa using hx
        have hmain := @processRows_c6 ts (if ts then origin else dest) path k
          (exp ++ [curr]) (queryRows db ts curr k) visited qrest enq h1' h2' h3 h4
        cases hpr : processRows ts (if ts then origin else dest) path k
            (queryRows db ts curr k) visited qrest enq with
        | inl pr =>
          obtain ⟨r, enq'⟩ := pr
          rw [hpr] at hmain
          exact ⟨h1'.sublist (List.sublist_append_left _ _), hmain⟩
        | inr pr =>
          obtain ⟨v', q', enq'⟩ := pr
          rw [hpr] at hmain
          exact ih v' q' (exp ++ [curr]) enq' hmain.1 hmain.2.1 hmain.2.2.1 hmain.2.2.2

/-! ## Formatter lemmas -/

/-- Recogniser for Ride-Bus steps. -/
def isRide : Step → Bool
  | Step.ride _ _ _ _ _ => true
  | Step.walk _ _ => false

theorem countRides_flat (ts : Bool) :
    ∀ l : List Leg, ((l.flatMap (midSteps ts)).countP isRide) = l.length := by
  intro l
  induction l with
  | nil => simp
  | cons x xs ih =>
    rw [List.flatMap_cons, List.countP_append, ih, midSteps, List.countP_append]
    split_ifs <;> simp [isRide, rideStep] <;> omega

theorem countRides_format (ts : Bool) (ow dw : Int) (p : List Leg) :
    ((formatItinerary ts ow dw p).countP isRide) = p.length := by
  cases p with
  | nil =>
    rw [formatItinerary]
    split_ifs <;> simp [isRide]
  | cons l rest =>
    rw [formatItinerary]
    rw [List.countP_append, List.countP_append, List.countP_append, countRides_flat]
    have h1 : (if 0 < ow + l.walk_meters then
        [Step.walk l.fromName (ow + l.walk_meters)] else []).countP isRide = 0 := by
      split_ifs <;> simp [isRide]
    have h2 : (if 0 < dw then
        [Step.walk "Final Destination" dw] else []).countP isRide = 0 := by
      split_ifs <;> simp [isRide]
    rw [h1, h2]
    simp [isRide, rideStep]
    omega

theorem formatItinerary_eq_spec (ts : Bool) (ow dw : Int) (hdw : 0 ≤ dw)
    (p : List Leg) :
    formatItinerary ts ow dw p = formatItinerarySpec ts ow dw p := by
  have hc : (0 < dw) ↔ (dw ≠ 0) := by omega
  cases p with
  | nil =>
    rw [formatItinerary, formatItinerarySpec]
    exact if_congr hc rfl rfl
  | cons l rest =>
    rw [formatItinerary, formatItinerarySpec]
    congr 1
    exact if_congr hc rfl rfl

theorem plan_by_coords_core_success {db : DB} {orig : String} {ow : Int}
    {dest : String} {dw : Int} {a : Option String} {fuel : Nat} {m : String}
    {steps : List Step}
    (h : plan_by_coords_core db orig ow dest dw a fuel = CoordResult.success m steps) :
    ∃ p t1 t2,
      runSearch db (parse_time_str a).isSome orig dest (parse_time_str a) fuel =
        (SResult.success m p, t1, t2) ∧
      steps = formatItinerary (parse_time_str a).isSome ow dw p := by
  rw [plan_by_coords_core] at h
  cases hb : runSearch db (parse_time_str a).isSome orig dest (parse_time_str a) fuel with
  | mk r tr =>
    obtain ⟨t1, t2⟩ := tr
    rw [hb] at h
    cases r with
    | success m' p =>
      simp only [CoordResult.success.injEq] at h
      exact ⟨p, t1, t2, by rw [h.1], h.2.symm⟩
    | notFound => exact absurd h (by simp)
    | outOfFuel => exact absurd h (by simp)

/-! ## Lemmas at the `runSearch` level -/

theorem runSearch_success_length {db : DB} {ts : Bool} {origin dest : String}
    {deadline : Option String} {fuel : Nat} {m : String} {p : List Leg}
    (h : (runSearch db ts origin dest deadline fuel).1 = SResult.success m p) :
    1 ≤ p.length ∧ p.length ≤ 4 := by
  have heq : runSearch db ts origin dest deadline fuel =
      (SResult.success m p, (runSearch db ts origin dest deadline fuel).2) := by
    rw [← h]
  exact bfsT_success_length fuel heq

theorem runSearch_ts_chain {db : DB} {origin dest deadline : String}
    {fuel : Nat} {m : String} {p : List Leg}
    (h : (runSearch db true origin dest (some deadline) fuel).1 =
      SResult.success m p) :
    tsChain deadline p := by
  have heq : runSearch db true origin dest (some deadline) fuel =
      (SResult.success m p, (runSearch db true origin dest (some deadline) fuel).2) := by
    rw [← h]
  have hstep : ∀ c path k row nsid np nk, entryInv deadline (c, path, k) →
      rowCandidate true row path k = some (nsid, np, nk) →
      entryInv deadline (nsid, np, nk) := by
    intro c path k row nsid np nk hP hc
    obtain ⟨leg, hnp, hnk, hfeas⟩ := rowCandidate_true_inv hc
    subst hnp
    refine ⟨⟨?_, hP.1⟩, ?_⟩
    · rw [← hP.2]
      exact hfeas
    · rw [hnk]
      rfl
  have hq : ∀ e ∈ [((dest : String), ([] : List Leg), some deadline)],
      entryInv deadline e := by
    intro e he
    rw [List.mem_singleton.mp he]
    exact ⟨trivial, rfl⟩
  obtain ⟨x, k, hinv⟩ := bfsT_success_pred (entryInv deadline) hstep fuel hq heq
  exact hinv.1

/-- Membership transport through `allSome`. -/
theorem allSome_mem {α : Type} :
    ∀ {l : List (Option α)} {out : List α},
      allSome l = some out → ∀ a ∈ out, some a ∈ l := by
  intro l
  induction l with
  | nil =>
    intro out h a ha
    simp only [allSome, Option.some.injEq] at h
    rw [← h] at ha
    exact absurd ha (by simp)
  | cons x xs ih =>
    intro out h a ha
    cases x with
    | none => exact absurd h (by simp [allSome])
    | some b =>
      rw [allSome] at h
      cases hx : allSome xs with
      | none => rw [hx] at h; exact absurd h (by simp)
      | some rest =>
        rw [hx] at h
        simp only [Option.map_some', Option.some.injEq] at h
        rw [← h] at ha
        rcases List.mem_cons.mp ha with ha | ha
        · rw [ha]; exact List.mem_cons_self _ _
        · exact List.mem_cons_of_mem _ (ih hx a ha)

/-! ## Claims -/

/-- C1: in either mode, a queue entry whose accumulated path already has 4
legs is discarded without expansion, and every successfully returned itinerary
of `plan_multi_transfer` or of the coordinate planner contains at most 4 ride
legs. -/
theorem claim_c1_hop_bound :
    (∀ (db : DB) (ts : Bool) (origin dest : String) (fuel : Nat)
       (visited : List String) (curr : String) (path : List Leg)
       (k : Option String) (qrest : List Entry) (e1 e2 : List String),
       4 ≤ path.length →
       bfsT db ts origin dest (fuel + 1) visited ((curr, path, k) :: qrest) e1 e2 =
         bfsT db ts origin dest fuel visited qrest e1 e2) ∧
    (∀ (db : DB) (o d : String) (a : Option String) (fuel : Nat) (m : String)
       (p : List Leg),
       plan_multi_transfer db o d a fuel = SResult.success m p →
       p.length ≤ 4) ∧
    (∀ (db : DB) (o : String) (ow : Int) (d : String) (dw : Int)
       (a : Option String) (fuel : Nat) (m : String) (steps : List Step),
       plan_by_coords_core db o ow d dw a fuel = CoordResult.success m steps →
       (steps.countP isRide) ≤ 4) := by
  refine ⟨?_, ?_, ?_⟩
  · intro db ts origin dest fuel visited curr path k qrest e1 e2 hlen
    rw [bfsT, if_pos hlen]
  · intro db o d a fuel m p h
    exact (runSearch_success_length h).2
  · intro db o ow d dw a fuel m steps h
    obtain ⟨p, t1, t2, hrun, hsteps⟩ := plan_by_coords_core_success h
    rw [hsteps, countRides_format]
    exact (runSearch_success_length (by rw [hrun])).2

theorem claim_c1_hop_bound_witness :
    (bfsT tinyDB false "A" "B" (0 + 1) ["A"]
       [("A", [⟨"M", "Stop A", "Stop B", 0, none, none⟩,
               ⟨"M", "Stop A", "Stop B", 0, none, none⟩,
               ⟨"M", "Stop A", "Stop B", 0, none, none⟩,
               ⟨"M", "Stop A", "Stop B", 0, none, none⟩], none)] [] [] =
     bfsT tinyDB false "A" "B" 0 ["A"] [] [] []) ∧
    ([⟨"M", "Stop A", "Stop B", 0, none, none⟩] : List Leg).length ≤ 4 ∧
    (([Step.walk "Stop A" 30, Step.ride "M" "Stop A" "Stop B" none none,
       Step.walk "Final Destination" 20] : List Step).countP isRide) ≤ 4 :=
  ⟨claim_c1_hop_bound.1 tinyDB false "A" "B" 0 ["A"] "A" _ none [] [] [] (by decide),
   claim_c1_hop_bound.2.1 tinyDB "A" "B" none 10 "generic" _ (by decide),
   claim_c1_hop_bound.2.2 tinyDB "A" 30 "B" 20 none 10 "generic" _ (by decide)⟩

/-- C2: in deadline mode, every leg of a returned itinerary satisfies
arrival + walk-buffer ≤ the constraint active when it was accepted (the
deadline for the last leg, the successor's departure for earlier legs). -/
theorem claim_c2_deadline_chain (db : DB) (o d : String) (a : Option String)
    (deadline : String) (fuel : Nat) (m : String) (p : List Leg)
    (hparse : parse_time_str a = some deadline)
    (h : plan_multi_transfer db o d a fuel = SResult.success m p) :
    tsChain deadline p := by
  rw [plan_multi_transfer, plan_multi_transferT, hparse] at h
  exact runSearch_ts_chain h

theorem claim_c2_deadline_chain_witness :
    tsChain "10:10:00"
      [⟨"M", "Stop A", "Stop B", 0, some "10:00:00", some "10:05:00"⟩] :=
  claim_c2_deadline_chain tinyDB "A" "B" (some "10:10:00") "10:10:00" 10
    "time-constrained" _ (by decide) (by decide)

/-- C3 counterexample: a present but unparseable `arrive_by` does not abort
the query with an error; the search silently runs in unconstrained mode and
can succeed. -/
theorem claim_c3_counterexample :
    parse_time_str (some "not-a-time") = none ∧
    plan_multi_transfer tinyDB "A" "B" (some "not-a-time") 10 =
      SResult.success "generic" [⟨"M", "Stop A", "Stop B", 0, none, none⟩] :=
  ⟨by decide, by decide⟩

/-- C3 (amended): when the supplied deadline string fails to parse, the query
proceeds exactly as if no deadline had been supplied (silent fallback to
unconstrained mode); no InvalidInput error is raised. -/
theorem claim_c3_fallback (db : DB) (o d : String) (a : Option String)
    (fuel : Nat) (h : parse_time_str a = none) :
    plan_multi_transferT db o d a fuel = plan_multi_transferT db o d none fuel := by
  rw [plan_multi_transferT, plan_multi_transferT, h]
  rfl

theorem claim_c3_fallback_witness :
    plan_multi_transferT tinyDB "A" "B" (some "not-a-time") 10 =
      plan_multi_transferT tinyDB "A" "B" none 10 :=
  claim_c3_fallback tinyDB "A" "B" (some "not-a-time") 10 (by decide)

/-- C4: a found trip's leg is classified Direct with verbatim (stripped) times
exactly when the origin visit's sequence is strictly below the destination
visit's, and Loop with the next-lap arrival annotation exactly when it is
greater or equal; every returned leg arises from a query row this way. -/
theorem claim_c4_direct_loop :
    (∀ (r : DirectRow) (dep arr : String),
      r.departure_time = some dep → r.arrival_time = some arr →
      (r.origin_seq < r.dest_seq →
        classifyRow r =
          some ⟨r.route_short_name, "Direct", pyStrip dep, pyStrip arr,
                r.trip_id⟩) ∧
      (r.dest_seq ≤ r.origin_seq →
        classifyRow r =
          some ⟨r.route_short_name, "Loop (Stay on board)", pyStrip dep,
                pyStrip arr ++ " (Next Loop)", r.trip_id⟩)) ∧
    (∀ (db : DB) (o d : String) (L : List DirectLeg) (leg : DirectLeg),
      plan_trip db o d = some (DirectResult.legs L) → leg ∈ L →
      ∃ r ∈ queryDirect db o d, classifyRow r = some leg) := by
  constructor
  · intro r dep arr hdep harr
    constructor
    · intro hlt
      simp only [classifyRow, hdep, harr]
      rw [if_pos hlt]
    · intro hge
      simp only [classifyRow, hdep, harr]
      rw [if_neg (not_lt.mpr hge)]
  · intro db o d L leg h hmem
    rw [plan_trip] at h
    split_ifs at h with hre
    · simp only [Option.some.injEq] at h
      exact absurd h (by simp)
    · cases hall : allSome ((queryDirect db o d).map classifyRow) with
      | none => rw [hall] at h; exact absurd h (by simp)
      | some legsAll =>
        rw [hall] at h
        simp only [Option.map_some', Option.some.injEq, DirectResult.legs.injEq] at h
        rw [← h] at hmem
        have hmem2 : leg ∈ legsAll := List.mem_of_mem_take hmem
        have hsome : some leg ∈ (queryDirect db o d).map classifyRow :=
          allSome_mem hall leg hmem2
        obtain ⟨r, hr, hcl⟩ := List.mem_map.mp hsome
        exact ⟨r, hr, hcl⟩

theorem claim_c4_direct_loop_witness :
    classifyRow ⟨"T1", some "M", 1, 2, some "10:00:00", some "10:05:00", some 0⟩ =
      some ⟨some "M", "Direct", pyStrip "10:00:00", pyStrip "10:05:00", "T1"⟩ ∧
    classifyRow ⟨"T1", some "M", 2, 1, some "09:00:00", some "09:10:00", some 0⟩ =
      some ⟨some "M", "Loop (Stay on board)", pyStrip "09:00:00",
            pyStrip "09:10:00" ++ " (Next Loop)", "T1"⟩ ∧
    ∃ r ∈ queryDirect tinyDB "A" "B",
      classifyRow r = some ⟨some "M", "Direct", "10:00:00", "10:05:00", "T1"⟩ :=
  ⟨(claim_c4_direct_loop.1 _ "10:00:00" "10:05:00" rfl rfl).1 (by decide),
   (claim_c4_direct_loop.1 _ "09:00:00" "09:10:00" rfl rfl).2 (by decide),
   claim_c4_direct_loop.2 tinyDB "A" "B"
     [⟨some "M", "Direct", "10:00:00", "10:05:00", "T1"⟩]
     ⟨some "M", "Direct", "10:00:00", "10:05:00", "T1"⟩ (by decide) (by decide)⟩

/-- C5 counterexample: with no trip serving both stops, `plan_trip` returns
the "No routes found" message object, not an empty list of legs. -/
theorem claim_c5_counterexample :
    plan_trip tinyDB "A" "C" = some DirectResult.noService ∧
    plan_trip tinyDB "A" "C" ≠ some (DirectResult.legs []) :=
  ⟨by decide, by decide⟩

/-- C5 (amended): when no trip serves both stops the planner returns the
no-routes message (an ordinary response, not an HTTP error and not an empty
list); when legs are returned, the query rows are ordered by origin departure
time ascending and the leg list is the first 5 classified rows. -/
theorem claim_c5_no_service (db : DB) (o d : String) :
    (queryDirect db o d = [] → plan_trip db o d = some DirectResult.noService) ∧
    List.Sorted ascDepRow (queryDirect db o d) ∧
    (∀ L, plan_trip db o d = some (DirectResult.legs L) →
      L.length ≤ 5 ∧
      ∃ legsAll, allSome ((queryDirect db o d).map classifyRow) = some legsAll ∧
        L = legsAll.take 5) := by
  refine ⟨?_, ?_, ?_⟩
  · intro h
    rw [plan_trip, h]
    rfl
  · rw [queryDirect]
    exact List.sorted_insertionSort ascDepRow _
  · intro L h
    rw [plan_trip] at h
    split_ifs at h with hre
    · simp only [Option.some.injEq] at h
      exact absurd h (by simp)
    · cases hall : allSome ((queryDirect db o d).map classifyRow) with
      | none => rw [hall] at h; exact absurd h (by simp)
      | some legsAll =>
        rw [hall] at h
        simp only [Option.map_some', Option.some.injEq, DirectResult.legs.injEq] at h
        refine ⟨?_, legsAll, rfl, h.symm⟩
        rw [← h]
        have := List.length_take 5 legsAll
        omega

theorem claim_c5_no_service_witness :
    plan_trip tinyDB "A" "C" = some DirectResult.noService ∧
    ([⟨some "M", "Direct", "10:00:00", "10:05:00", "T1"⟩] : List DirectLeg).length ≤ 5 :=
  ⟨(claim_c5_no_service tinyDB "A" "C").1 (by decide),
   ((claim_c5_no_service tinyDB "A" "B").2.2 _ (by decide)).1⟩

/-- C6: throughout one search, each stop id is expanded at most once and
enqueued at most once, whatever time constraints the branches carry: the
ghost traces of expanded and enqueued stop ids have no duplicates. -/
theorem claim_c6_visited_once :
    (∀ (db : DB) (o d : String) (a : Option String) (fuel : Nat),
      (plan_multi_transferT db o d a fuel).2.1.Nodup ∧
      (plan_multi_transferT db o d a fuel).2.2.Nodup) ∧
    (∀ (db : DB) (ts : Bool) (o d : String) (k : Option String) (fuel : Nat),
      (runSearch db ts o d k fuel).2.1.Nodup ∧
      (runSearch db ts o d k fuel).2.2.Nodup) := by
  have hrs : ∀ (db : DB) (ts : Bool) (o d : String) (k : Option String) (fuel : Nat),
      (runSearch db ts o d k fuel).2.1.Nodup ∧
      (runSearch db ts o d k fuel).2.2.Nodup := by
    intro db ts o d k fuel
    rw [runSearch]
    exact bfsT_c6 fuel _ _ _ _ (by simp) (by simp) (by simp) (by simp)
  exact ⟨fun db o d a fuel => hrs db _ _ _ _ fuel, hrs⟩

/-- C7 counterexample: a malformed (nonempty, unparseable) time string does
not cause the candidate to be skipped — it parses as midnight via the
fallback, and the candidate can be accepted and returned. -/
theorem claim_c7_counterexample :
    pyParseHMS "0:xx" = none ∧ get_py_time (some "0:xx") = 0 ∧
    plan_multi_transfer malformedDB "O" "B" (some "10:00:00") 10 =
      SResult.success "time-constrained"
        [⟨"M", "Stop O", "Stop B", 0, some "bad-dep", some "0:xx"⟩] :=
  ⟨by decide, by decide, by decide⟩

/-- C7 (amended): a candidate whose departure or arrival time is missing
(NULL or empty) is skipped, and a skipped candidate leaves the rest of the
search unchanged — the query as a whole does not fail; a malformed nonempty
time string, however, is not skipped (it evaluates as midnight via
`get_py_time`'s fallback, see the counterexample). -/
theorem claim_c7_leg_skip :
    (∀ (row : Row) (path : List Leg) (k : Option String),
      (pyTruthy row.departure_time = false ∨ pyTruthy row.arrival_time = false) →
      rowCandidate true row path k = none) ∧
    (∀ (ts : Bool) (target : String) (path : List Leg) (k : Option String)
       (row : Row) (rest : List Row) (visited : List String)
       (queue : List Entry) (enq : List String),
      rowCandidate ts row path k = none →
      processRows ts target path k (row :: rest) visited queue enq =
        processRows ts target path k rest visited queue enq) :=
  ⟨fun _ _ _ h => rowCandidate_missing_time h,
   fun _ _ _ _ _ _ _ _ _ h => processRows_skip h⟩

theorem claim_c7_leg_skip_witness :
    rowCandidate true ⟨"O", "B", some "Stop O", some "Stop B", some "M", none,
        some "10:00:00", some 0⟩ [] (some "10:30:00") = none ∧
    processRows true "X" [] (some "10:30:00")
        [⟨"O", "B", some "Stop O", some "Stop B", some "M", none,
          some "10:00:00", some 0⟩] [] [] [] =
      processRows true "X" [] (some "10:30:00") [] [] [] [] :=
  ⟨claim_c7_leg_skip.1 _ [] (some "10:30:00") (by decide),
   claim_c7_leg_skip.2 true "X" [] (some "10:30:00") _ [] [] [] [] (by decide)⟩

/-- C8 counterexample: a leg whose boarding stop equals its alighting stop is
returned when a trip visits the same stop at two sequence positions. -/
theorem claim_c8_counterexample :
    plan_multi_transfer loopDB "O" "B" (some "10:00:00") 10 =
      SResult.success "time-constrained"
        [⟨"M", "Stop O", "Stop O", 50, some "09:00:00", some "09:10:00"⟩] ∧
    (⟨"M", "Stop O", "Stop O", 50, some "09:00:00", some "09:10:00"⟩ : Leg).fromName =
      (⟨"M", "Stop O", "Stop O", 50, some "09:00:00", some "09:10:00"⟩ : Leg).toName :=
  ⟨by decide, by decide⟩

/-- C8 (amended): every stop has a self transfer edge (A, A, 0), and every
candidate ride joins two scheduled visits with boarding sequence strictly
below alighting sequence; however a returned leg's boarding stop can equal
its alighting stop when a trip visits the same stop twice (counterexample). -/
theorem claim_c8_self_edges :
    (∀ (dist : Rat × Rat → Rat × Rat → Rat) (stops : List Stop) (s : Stop),
      (∀ pt, dist pt pt = 0) → s ∈ stops →
      (⟨s.stop_id, s.stop_id, some 0⟩ : Transfer) ∈ buildTransfers dist stops) ∧
    (∀ (db : DB) (ts : Bool) (curr : String) (k : Option String) (j : JoinRow),
      j ∈ joinRowsMT db ts curr k →
      j.st1.stop_sequence < j.st2.stop_sequence) := by
  constructor
  · intro dist stops s hd hs
    rw [buildTransfers]
    refine List.mem_flatMap.mpr ⟨s, hs, List.mem_filterMap.mpr ⟨s, hs, ?_⟩⟩
    rw [hd, if_pos (by norm_num)]
  · intro db ts curr k j hj
    simp only [joinRowsMT, List.mem_flatMap, List.mem_filterMap] at hj
    obtain ⟨tr, -, st1, -, st2, -, t, -, r, -, os, -, ds, -, hif⟩ := hj
    split at hif
    next hcond =>
      injection hif with hj2
      rw [← hj2]
      exact hcond.2.2.2.2.2.2.2.2.1
    next => exact absurd hif (by simp)

theorem claim_c8_self_edges_witness :
    (⟨"A", "A", some 0⟩ : Transfer) ∈
      buildTransfers (fun _ _ => 0) [⟨"A", some "Stop A", 0, 0⟩] ∧
    (⟨⟨"A", "A", some 0⟩, ⟨"T1", "A", some "10:00:00", some "10:00:00", 1⟩,
      ⟨"T1", "B", some "10:05:00", some "10:05:00", 2⟩, ⟨"T1", "R1", some 0⟩,
      ⟨"R1", some "M"⟩, ⟨"A", some "Stop A", 0, 0⟩,
      ⟨"B", some "Stop B", 0, 0⟩⟩ : JoinRow).st1.stop_sequence <
    (⟨⟨"A", "A", some 0⟩, ⟨"T1", "A", some "10:00:00", some "10:00:00", 1⟩,
      ⟨"T1", "B", some "10:05:00", some "10:05:00", 2⟩, ⟨"T1", "R1", some 0⟩,
      ⟨"R1", some "M"⟩, ⟨"A", some "Stop A", 0, 0⟩,
      ⟨"B", some "Stop B", 0, 0⟩⟩ : JoinRow).st2.stop_sequence :=
  ⟨claim_c8_self_edges.1 (fun _ _ => 0) [⟨"A", some "Stop A", 0, 0⟩]
      ⟨"A", some "Stop A", 0, 0⟩ (fun _ => rfl) (by decide),
   claim_c8_self_edges.2 tinyDB false "A" none _ (by decide)⟩

/-- C9: a successful coordinate-based plan's itinerary merges the initial GPS
walk with the first leg's transfer walk into one combined Walk step emitted
only when positive, emits intermediate transfer walks only when their
distance is greater than zero, and appends a trailing Walk step exactly when
the final GPS distance is nonzero (stated through the spec-side formatter). -/
theorem claim_c9_formatting (db : DB) (o : String) (ow : Int) (d : String)
    (dw : Int) (a : Option String) (fuel : Nat) (m : String)
    (steps : List Step) (hdw : 0 ≤ dw)
    (h : plan_by_coords_core db o ow d dw a fuel = CoordResult.success m steps) :
    ∃ p, p ≠ [] ∧
      (runSearch db (parse_time_str a).isSome o d (parse_time_str a) fuel).1 =
        SResult.success m p ∧
      steps = formatItinerarySpec (parse_time_str a).isSome ow dw p := by
  obtain ⟨p, t1, t2, hrun, hsteps⟩ := plan_by_coords_core_success h
  have hlen := runSearch_success_length (m := m) (p := p) (by rw [hrun])
  refine ⟨p, ?_, by rw [hrun], ?_⟩
  · intro hnil
    rw [hnil] at hlen
    simp at hlen
  · rw [hsteps, formatItinerary_eq_spec _ _ _ hdw]

theorem claim_c9_formatting_witness :
    ∃ p, p ≠ [] ∧
      (runSearch tinyDB (parse_time_str none).isSome "A" "B"
        (parse_time_str none) 10).1 = SResult.success "generic" p ∧
      [Step.walk "Stop A" 30, Step.ride "M" "Stop A" "Stop B" none none,
       Step.walk "Final Destination" 20] =
        formatItinerarySpec (parse_time_str none).isSome 30 20 p :=
  claim_c9_formatting tinyDB "A" 30 "B" 20 none 10 "generic" _ (by decide) (by decide)

/-- C10: the in-search comparison reduces hours modulo 24 (a parsed time
`h:m:s` evaluates to `(h % 24) * 3600 + m * 60 + s` seconds), while the SQL
pre-filter compares the trimmed arrival string lexicographically with the
constraint string; on the post-midnight leg below the two disagree: the SQL
filter rejects arrival "25:00:00" against constraint "10:00:00" while the
in-search feasibility check accepts the same leg. -/
theorem claim_c10_midnight_mismatch :
    (∀ (t : String) (h mi s : Int), pyParseHMS t = some (h, mi, s) →
      get_py_time (some t) = (h % 24) * 3600 + mi * 60 + s) ∧
    sqlLeTrimmed (some "25:00:00") (some "10:00:00") = false ∧
    rowCandidate true
        ⟨"O", "B", some "Stop O", some "Stop B", some "M", some "24:50:00",
         some "25:00:00", some 0⟩ [] (some "10:00:00") =
      some ("O", [⟨"M", "Stop O", "Stop B", 0, some "24:50:00", some "25:00:00"⟩],
            some "24:50:00") ∧
    get_py_time (some "25:00:00") = 3600 := by
  refine ⟨?_, by decide, by decide, by decide⟩
  intro t h mi s hp
  have ht : ¬ t = "" := by
    intro he
    rw [he] at hp
    have hnone : pyParseHMS "" = none := by decide
    rw [hnone] at hp
    exact absurd hp (by simp)
  rw [get_py_time, if_neg ht, hp]

theorem claim_c10_midnight_mismatch_witness :
    get_py_time (some "25:30:00") = (25 % 24) * 3600 + 30 * 60 + 0 :=
  claim_c10_midnight_mismatch.1 "25:30:00" 25 30 0 (by decide)

end ZotRoute
